/-
Verification of the task-assignment and progress-tracking engine of the
rlhf-formats-pilot backend.

The relational store is embedded as lists kept in insertion order:
`participants`, `prompts` (ids only), `task_assignments` (list order models
the `assigned_at` ordering, since rows are inserted sequentially) and
`annotations`.  The per-experiment `study_config` keys `design_type`,
`formats_enabled` (already split at commas) and `annotations_per_format`
(already parsed as a number) are fields of the store; the claims under
study never exercise a missing config key.  Timestamps carry no logic and
are either elided or kept as opaque strings.

`ORDER BY RANDOM()` draws are modelled by passing the randomly ordered
list (for registration: a permutation of the prompt table) or a selection
function (for the between-subjects next-task pick) as an explicit
parameter, so every theorem quantifies over all outcomes of the store's
randomization.
-/
import Mathlib

namespace RlhfPilot

/-- A row of the `participants` table (columns that carry logic). -/
structure Participant where
  id : Nat
  prolificPid : String
  formatAssigned : String
  designType : String
  completionCode : String
  consentGiven : Bool
  instructionsCompleted : Bool
  completedAt : Option String
deriving Repr, DecidableEq

/-- A row of the `task_assignments` table. -/
structure TaskAssignment where
  participantId : Nat
  promptId : Nat
  format : String
  completed : Bool
deriving Repr, DecidableEq

/-- A row of the `annotations` table (answer-payload columns elided:
they are stored opaquely and never read by the engine). -/
structure Annotation where
  id : Nat
  participantId : Nat
  promptId : Nat
  format : String
deriving Repr, DecidableEq

/-- The relational store plus the study configuration. -/
structure Store where
  designType : String
  formatsEnabled : List String
  annotationsPerFormat : Nat
  prompts : List Nat
  participants : List Participant
  taskAssignments : List TaskAssignment
  annotations : List Annotation
deriving Repr, DecidableEq

/-- Outcome of `POST /register` (participants router). `error` is an
HTTP 500 from the catch-all handler. -/
inductive RegResponse where
  | badRequest
  | already (participantId : Nat) (completionCode : String)
      (formatAssigned : String) (designType : String)
  | ok (participantId : Nat) (completionCode : String)
      (formatAssigned : String) (designType : String)
  | error
deriving Repr, DecidableEq

/-- The sequence of formats the within-subjects assignment loop walks:
each enabled format repeated `annotations_per_format` times, in
enabled-formats order (`formatsEnabled.forEach(format => for i < k ...)`). -/
def formatSeq (k : Nat) : List String → List String
  | [] => []
  | f :: fs => List.replicate k f ++ formatSeq k fs

/-- The task_assignments rows written by the registration loop.  The loop
indexes `allPrompts[idx]` sequentially while iterating formats; in JS the
iteration throws as soon as `idx` runs past the end of the drawn prompt
list, by which point one row per drawn prompt has already been inserted —
hence the truncating `zip`. -/
def buildRows (pid : Nat) (k : Nat) (formats : List String)
    (draw : List Nat) : List TaskAssignment :=
  ((formatSeq k formats).zip draw).map fun fp =>
    ⟨pid, fp.2, fp.1, false⟩

/-- Participants currently assigned to format `f`
(`SELECT COUNT(*) FROM participants WHERE format_assigned = ?`). -/
def countFormat (db : Store) (f : String) : Nat :=
  (db.participants.filter fun p => p.formatAssigned == f).length

/-- The between-subjects balancer: count participants per enabled format,
stable-sort the (format, count) entries ascending by count
(`Object.entries(counts).sort((a,b) => a[1]-b[1])`, JS sort being stable)
and take the first.  `Object.entries` iterates string keys in insertion
order, so for duplicate-free format names the entry list is
`formatsEnabled` in order.  `none` models the JS TypeError (caught as a
500) when the entry list is empty. -/
def chooseBetweenFormat (db : Store) : Option String :=
  ((db.formatsEnabled.map fun f => (f, countFormat db f)).insertionSort
    (fun a b => a.2 ≤ b.2)).head?.map Prod.fst

/-- `POST /api/participants/register` (participants router).  `shuffled`
is the prompt table in the random order produced by
`ORDER BY RANDOM()`; `code` is the freshly generated completion code.
The new participant id models `lastInsertRowid` of an append-only table.
Note there is no transaction: in the within branch the participant row
and the truncated batch of assignment rows persist even when the draw is
too short and the request ends in a 500. -/
def register (db : Store) (prolificPid : String) (shuffled : List Nat)
    (code : String) : RegResponse × Store :=
  if prolificPid = "" then (.badRequest, db)
  else
    match db.participants.find? (fun p => p.prolificPid == prolificPid) with
    | some p => (.already p.id p.completionCode p.formatAssigned p.designType, db)
    | none =>
      if db.designType = "within" then
        let newId := db.participants.length + 1
        let p : Participant :=
          ⟨newId, prolificPid, "all", db.designType, code, false, false, none⟩
        let k := db.annotationsPerFormat
        let need := k * db.formatsEnabled.length
        let draw := shuffled.take need
        let rows := buildRows newId k db.formatsEnabled draw
        let db' := { db with participants := db.participants ++ [p],
                             taskAssignments := db.taskAssignments ++ rows }
        if draw.length < need then (.error, db')
        else (.ok newId code "all" db.designType, db')
      else
        match chooseBetweenFormat db with
        | none => (.error, db)
        | some fmt =>
          let newId := db.participants.length + 1
          let p : Participant :=
            ⟨newId, prolificPid, fmt, db.designType, code, false, false, none⟩
          (.ok newId code fmt db.designType,
           { db with participants := db.participants ++ [p] })

/-- Outcome of `GET /api/annotations/next/:participant_id`. -/
inductive TaskResponse where
  | notFound
  | done
  | task (promptId : Nat) (format : String)
deriving Repr, DecidableEq

/-- Annotation rows of a participant, in insertion order
(`SELECT prompt_id FROM annotations WHERE participant_id = ?` keeps one
entry per row, duplicates included). -/
def participantAnnotations (db : Store) (pid : Nat) : List Annotation :=
  db.annotations.filter fun a => a.participantId == pid

/-- Task-assignment rows of one participant, in `assigned_at` order
(`SELECT * FROM task_assignments WHERE participant_id = ?`). -/
def participantTasks (db : Store) (pid : Nat) : List TaskAssignment :=
  db.taskAssignments.filter fun t => t.participantId == pid

/-- `GET /api/annotations/next/:participant_id` (annotations router).
The within branch orders by `assigned_at` (list order) and joins
`prompts`, so an assignment whose prompt id is absent from the prompt
table drops out of the result.  The between branch first compares the
participant's annotation count against `annotations_per_format`, then
draws one random prompt among those not yet annotated by the
participant; `pick` models that `ORDER BY RANDOM() LIMIT 1` choice. -/
def getNextTask (db : Store) (pid : Nat)
    (pick : List Nat → Option Nat) : TaskResponse :=
  match db.participants.find? (fun p => p.id == pid) with
  | none => .notFound
  | some participant =>
    if participant.designType = "within" then
      match db.taskAssignments.find? (fun t =>
          t.participantId == pid && !t.completed
            && db.prompts.contains t.promptId) with
      | some t => .task t.promptId t.format
      | none => .done
    else
      let completedPrompts := (participantAnnotations db pid).map (·.promptId)
      if db.annotationsPerFormat ≤ completedPrompts.length then .done
      else
        match pick (db.prompts.filter fun pr => !completedPrompts.contains pr) with
        | some pr => .task pr participant.formatAssigned
        | none => .done

/-- Outcome of `POST /api/annotations`. -/
inductive SubmitResponse where
  | badRequest
  | notFound
  | ok (annotationId : Nat)
deriving Repr, DecidableEq

/-- `POST /api/annotations` (annotations router).  The required-field
check is JS truthiness, so id `0` or an empty format string is rejected.
One annotation row is inserted (id models the serial primary key); for a
within-subjects participant every `task_assignments` row matching
(participant, prompt, format) then has `completed` set to true — an
`UPDATE ... WHERE` that silently matches zero rows when no such
assignment exists. -/
def submit (db : Store) (pid promptId : Nat) (format : String) :
    SubmitResponse × Store :=
  if pid = 0 ∨ promptId = 0 ∨ format = "" then (.badRequest, db)
  else
    match db.participants.find? (fun p => p.id == pid) with
    | none => (.notFound, db)
    | some participant =>
      let annotId := db.annotations.length + 1
      let db₁ := { db with
        annotations := db.annotations ++ [⟨annotId, pid, promptId, format⟩] }
      let db₂ :=
        if participant.designType = "within" then
          { db₁ with taskAssignments := db₁.taskAssignments.map fun t =>
              if t.participantId == pid && t.promptId == promptId
                  && t.format == format
              then { t with completed := true } else t }
        else db₁
      (.ok annotId, db₂)

/-- Outcome of `GET /api/participants/:id/progress`
(`progress_percent` is display plumbing and elided). -/
inductive ProgressResponse where
  | notFound
  | ok (completed total : Nat)
deriving Repr, DecidableEq

/-- `GET /api/participants/:id/progress` (participants router).
`completed` counts the participant's **annotations** rows; `total` is the
task-assignment count for within-subjects and `annotations_per_format`
for between-subjects. -/
def progress (db : Store) (pid : Nat) : ProgressResponse :=
  match db.participants.find? (fun p => p.id == pid) with
  | none => .notFound
  | some participant =>
    .ok (participantAnnotations db pid).length
      (if participant.designType = "within" then
        (participantTasks db pid).length
      else db.annotationsPerFormat)

/-- `POST /api/participants/:id/consent`: an unconditional
`UPDATE participants SET consent_given = 1 WHERE id = ?` followed by
`{ success: true }` — no existence check. -/
def recordConsent (db : Store) (pid : Nat) : Bool × Store :=
  (true, { db with participants := db.participants.map fun p =>
    if p.id == pid then { p with consentGiven := true } else p })

/-- `POST /api/participants/:id/instructions`: same shape as consent. -/
def recordInstructionsDone (db : Store) (pid : Nat) : Bool × Store :=
  (true, { db with participants := db.participants.map fun p =>
    if p.id == pid then { p with instructionsCompleted := true } else p })

/-- Outcome of `POST /api/participants/:id/complete`. -/
inductive CompleteResponse where
  | notFound
  | ok (completionCode : String)
deriving Repr, DecidableEq

/-- `POST /api/participants/:id/complete`: looks the participant up
first and 404s when absent; otherwise stamps `completed_at` and returns
the completion code. -/
def markComplete (db : Store) (pid : Nat) (now : String) :
    CompleteResponse × Store :=
  match db.participants.find? (fun p => p.id == pid) with
  | none => (.notFound, db)
  | some participant =>
    (.ok participant.completionCode,
     { db with participants := db.participants.map fun p =>
        if p.id == pid then { p with completedAt := some now } else p })

/-- The participant's not-yet-completed assignments, in assignment order. -/
def incompleteTasks (db : Store) (pid : Nat) : List TaskAssignment :=
  (participantTasks db pid).filter fun t => !t.completed

section ListHelpers

theorem map_eq_self_of_eq {α : Type} (f : α → α) :
    ∀ l : List α, (∀ a ∈ l, f a = a) → l.map f = l := by
  intro l h
  induction l with
  | nil => rfl
  | cons a l ih =>
    simp only [List.map_cons, h a (List.mem_cons_self a l)]
    rw [ih fun b hb => h b (List.mem_cons_of_mem a hb)]

theorem head?_filter_eq_find? {α : Type} (p : α → Bool) :
    ∀ l : List α, (l.filter p).head? = l.find? p := by
  intro l
  induction l with
  | nil => rfl
  | cons a l ih =>
    by_cases h : p a
    · simp [List.filter_cons, List.find?_cons, h]
    · simp only [Bool.not_eq_true] at h
      simp [List.filter_cons, List.find?_cons, h, ih]

theorem countP_and_split {α : Type} (p q : α → Bool) :
    ∀ l : List α,
      l.countP p
        = l.countP (fun a => p a && q a) + l.countP (fun a => p a && !q a) := by
  intro l
  induction l with
  | nil => rfl
  | cons a l ih =>
    by_cases hp : p a
    · by_cases hq : q a <;>
        simp [List.countP_cons, hp, hq, ih] <;> omega
    · simp only [Bool.not_eq_true] at hp
      simp [List.countP_cons, hp, ih]

end ListHelpers

/-- C10 — `POST /:id/consent` and `POST /:id/instructions` answer
`{ success: true }` for every id (no lookup), and for an unknown id their
`UPDATE` matches no row, leaving the store unchanged; only
`POST /:id/complete` checks existence and 404s on an unknown id. -/
theorem consent_instructions_never_notFound
    (db : Store) (pid : Nat) (now : String) :
    (recordConsent db pid).1 = true ∧
    (recordInstructionsDone db pid).1 = true ∧
    ((∀ p ∈ db.participants, p.id ≠ pid) →
      (recordConsent db pid).2 = db ∧
      (recordInstructionsDone db pid).2 = db ∧
      markComplete db pid now = (.notFound, db)) := by
  refine ⟨rfl, rfl, fun habs => ⟨?_, ?_, ?_⟩⟩
  · obtain ⟨d, fs, k, pr, ps, ta, an⟩ := db
    simp only [recordConsent, Store.mk.injEq, true_and, and_true]
    apply map_eq_self_of_eq
    intro p hp
    simp [habs p hp]
  · obtain ⟨d, fs, k, pr, ps, ta, an⟩ := db
    simp only [recordInstructionsDone, Store.mk.injEq, true_and, and_true]
    apply map_eq_self_of_eq
    intro p hp
    simp [habs p hp]
  · have hfind : db.participants.find? (fun p => p.id == pid) = none := by
      rw [List.find?_eq_none]
      intro p hp
      simp [habs p hp]
    simp [markComplete, hfind]

/-- Closed instance of `consent_instructions_never_notFound`:
no participant row exists at all, yet consent and instructions succeed
without writing, while complete 404s. -/
theorem consent_instructions_never_notFound_witness :
    (recordConsent ⟨"within", ["pairwise"], 1, [10], [], [], []⟩ 5).2
        = ⟨"within", ["pairwise"], 1, [10], [], [], []⟩ ∧
    markComplete ⟨"within", ["pairwise"], 1, [10], [], [], []⟩ 5 "t"
        = (.notFound, ⟨"within", ["pairwise"], 1, [10], [], [], []⟩) := by
  have h := consent_instructions_never_notFound
    ⟨"within", ["pairwise"], 1, [10], [], [], []⟩ 5 "t"
  exact ⟨(h.2.2 (by decide)).1, (h.2.2 (by decide)).2.2⟩

/-- C4 — a between-subjects participant whose annotation count has
reached `annotations_per_format` gets `done = true` from
`GET /next/:participant_id`, whatever the random prompt pick would have
returned (the cap check precedes any prompt query). -/
theorem between_cap_done (db : Store) (pid : Nat) (P : Participant)
    (hfind : db.participants.find? (fun p => p.id == pid) = some P)
    (hdesign : P.designType = "between")
    (hcap : db.annotationsPerFormat ≤ (participantAnnotations db pid).length) :
    ∀ pick, getNextTask db pid pick = .done := by
  intro pick
  have hne : ¬(P.designType = "within") := by rw [hdesign]; decide
  simp [getNextTask, hfind, hne, hcap]

/-- Closed instance of `between_cap_done`: the participant has annotated
prompt 10, the cap is 1, and prompts 11 and 12 remain unseen, yet the
next-task call is done even for a pick that would return one of them. -/
theorem between_cap_done_witness :
    getNextTask
      ⟨"between", ["pairwise", "bws"], 1, [10, 11, 12],
        [⟨1, "P1", "pairwise", "between", "C1", false, false, none⟩],
        [], [⟨1, 1, 10, "pairwise"⟩]⟩ 1 (fun l => l.head?) = .done :=
  between_cap_done
    ⟨"between", ["pairwise", "bws"], 1, [10, 11, 12],
      [⟨1, "P1", "pairwise", "between", "C1", false, false, none⟩],
      [], [⟨1, 1, 10, "pairwise"⟩]⟩ 1
    ⟨1, "P1", "pairwise", "between", "C1", false, false, none⟩
    (by decide) (by decide) (by decide) (fun l => l.head?)

/-- C8 — a submit for an existing participant appends exactly one
annotation row and returns its id; for a within-subjects participant
every assignment row matching (participant, prompt, format) has its
`completed` flag set while all other rows are untouched, and when no row
matches the update is a silent no-op: the call still succeeds and the
annotation is still inserted. -/
theorem submit_effects (db : Store) (pid promptId : Nat) (format : String)
    (P : Participant)
    (hpid : pid ≠ 0) (hpr : promptId ≠ 0) (hfmt : format ≠ "")
    (hfind : db.participants.find? (fun p => p.id == pid) = some P) :
    (submit db pid promptId format).1 = .ok (db.annotations.length + 1) ∧
    (submit db pid promptId format).2.annotations
      = db.annotations ++ [⟨db.annotations.length + 1, pid, promptId, format⟩] ∧
    (P.designType = "within" →
      List.Forall₂
        (fun told tnew =>
          tnew = if told.participantId = pid ∧ told.promptId = promptId
              ∧ told.format = format
            then { told with completed := true } else told)
        db.taskAssignments (submit db pid promptId format).2.taskAssignments) ∧
    ((∀ t ∈ db.taskAssignments,
        ¬(t.participantId = pid ∧ t.promptId = promptId ∧ t.format = format)) →
      (submit db pid promptId format).2.taskAssignments = db.taskAssignments) := by
  have hcond : ¬(pid = 0 ∨ promptId = 0 ∨ format = "") := by
    simp [hpid, hpr, hfmt]
  refine ⟨?_, ?_, ?_, ?_⟩
  · simp [submit, hcond, hfind]
  · by_cases hd : P.designType = "within" <;> simp [submit, hcond, hfind, hd]
  · intro hd
    simp only [submit, if_neg hcond, hfind, if_pos hd]
    induction db.taskAssignments with
    | nil => exact List.Forall₂.nil
    | cons t l ih =>
      refine List.Forall₂.cons ?_ ih
      by_cases h : t.participantId = pid ∧ t.promptId = promptId ∧ t.format = format
      · have hb : (t.participantId == pid && t.promptId == promptId
            && t.format == format) = true := by
          simp [h.1, h.2.1, h.2.2]
        simp [hb, h]
      · have hb : ¬((t.participantId == pid && t.promptId == promptId
            && t.format == format) = true) := by
          simp only [Bool.and_eq_true, beq_iff_eq]
          exact fun hc => h ⟨hc.1.1, hc.1.2, hc.2⟩
        simp [hb, h]
  · intro hnone
    by_cases hd : P.designType = "within"
    · simp only [submit, if_neg hcond, hfind, if_pos hd]
      apply map_eq_self_of_eq
      intro t ht
      have hb : ¬((t.participantId == pid && t.promptId == promptId
          && t.format == format) = true) := by
        simp only [Bool.and_eq_true, beq_iff_eq]
        exact fun hc => hnone t ht ⟨hc.1.1, hc.1.2, hc.2⟩
      simp [hb]
    · simp [submit, hcond, hfind, hd]

/-- Closed instance of `submit_effects`: a within-subjects participant
submits for a (prompt, format) pair with no matching assignment row; the
call succeeds, the annotation is inserted, and the assignment table is
unchanged. -/
theorem submit_effects_witness :
    (submit ⟨"within", ["pairwise"], 1, [10],
        [⟨1, "P1", "all", "within", "C1", false, false, none⟩],
        [⟨1, 10, "pairwise", false⟩], []⟩ 1 99 "pairwise").1 = .ok 1 ∧
    (submit ⟨"within", ["pairwise"], 1, [10],
        [⟨1, "P1", "all", "within", "C1", false, false, none⟩],
        [⟨1, 10, "pairwise", false⟩], []⟩ 1 99 "pairwise").2.taskAssignments
      = [⟨1, 10, "pairwise", false⟩] := by
  have h := submit_effects ⟨"within", ["pairwise"], 1, [10],
      [⟨1, "P1", "all", "within", "C1", false, false, none⟩],
      [⟨1, 10, "pairwise", false⟩], []⟩ 1 99 "pairwise"
      ⟨1, "P1", "all", "within", "C1", false, false, none⟩
      (by decide) (by decide) (by decide) (by decide)
  exact ⟨h.1, h.2.2.2 (by decide)⟩

theorem find?_append_singleton (ps : List Participant) (p : Participant)
    (pid : String)
    (hnone : ps.find? (fun q => q.prolificPid == pid) = none)
    (hp : p.prolificPid = pid) :
    (ps ++ [p]).find? (fun q => q.prolificPid == pid) = some p := by
  rw [List.find?_append, hnone]
  simp [List.find?, hp]

/-- C3 — registration is idempotent: after a successful registration, a
second `register` call with the same external id answers with the same
participant id and completion code, flags `already_registered`, and
leaves the store exactly as it was (no second participant row, no second
batch of task assignments). -/
theorem register_idempotent (db : Store) (pid : String) (sh₁ sh₂ : List Nat)
    (c₁ c₂ : String) (i : Nat) (code fmt dt : String) (db₁ : Store)
    (h : register db pid sh₁ c₁ = (.ok i code fmt dt, db₁)) :
    register db₁ pid sh₂ c₂ = (.already i code fmt dt, db₁) := by
  by_cases hpid : pid = ""
  · simp [register, hpid] at h
  · simp only [register, if_neg hpid] at h
    cases hfind : db.participants.find? (fun p => p.prolificPid == pid) with
    | some p => simp only [hfind] at h; exact absurd h (by simp)
    | none =>
      simp only [hfind] at h
      by_cases hw : db.designType = "within"
      · simp only [if_pos hw] at h
        by_cases hlen :
            (sh₁.take (db.annotationsPerFormat * db.formatsEnabled.length)).length
              < db.annotationsPerFormat * db.formatsEnabled.length
        · rw [if_pos hlen] at h
          exact absurd h (by simp)
        · rw [if_neg hlen] at h
          injection h with h1 h2
          injection h1 with e1 e2 e3 e4
          subst e1; subst e2; subst e3; subst e4; subst h2
          have hfind₁ := find?_append_singleton db.participants
            ⟨db.participants.length + 1, pid, "all", db.designType, c₁,
              false, false, none⟩ pid hfind rfl
          simp [register, hpid, hfind₁]
      · simp only [if_neg hw] at h
        cases hch : chooseBetweenFormat db with
        | none => simp only [hch] at h; exact absurd h (by simp)
        | some fm =>
          simp only [hch] at h
          injection h with h1 h2
          injection h1 with e1 e2 e3 e4
          subst e1; subst e2; subst e3; subst e4; subst h2
          have hfind₁ := find?_append_singleton db.participants
            ⟨db.participants.length + 1, pid, fm, db.designType, c₁,
              false, false, none⟩ pid hfind rfl
          simp [register, hpid, hfind₁]

/-- Closed instance of `register_idempotent`: re-registering `P1` after
a successful within-subjects registration returns the first call's id
and code with the already-registered flag and no store change. -/
theorem register_idempotent_witness :
    register (register ⟨"within", ["pairwise"], 1, [10], [], [], []⟩
        "P1" [10] "C1").2 "P1" [] "C2"
      = (.already 1 "C1" "all" "within",
         (register ⟨"within", ["pairwise"], 1, [10], [], [], []⟩
            "P1" [10] "C1").2) :=
  register_idempotent ⟨"within", ["pairwise"], 1, [10], [], [], []⟩
    "P1" [10] [] "C1" "C2" 1 "C1" "all" "within" _ (by decide)

theorem formatSeq_length (k : Nat) (fs : List String) :
    (formatSeq k fs).length = k * fs.length := by
  induction fs with
  | nil => simp [formatSeq]
  | cons f fs ih =>
    simp [formatSeq, ih, List.length_replicate]
    ring

theorem formatSeq_count (k : Nat) (f : String) (fs : List String) :
    (formatSeq k fs).count f = k * fs.count f := by
  induction fs with
  | nil => simp [formatSeq]
  | cons a fs ih =>
    rw [formatSeq, List.count_append, ih, List.count_cons, List.count_replicate]
    by_cases h : a = f
    · simp [h]
      ring
    · simp [h]

theorem buildRows_length (pid k : Nat) (fs : List String) (draw : List Nat)
    (hdraw : draw.length = k * fs.length) :
    (buildRows pid k fs draw).length = k * fs.length := by
  simp [buildRows, List.length_zip, formatSeq_length, hdraw]

theorem buildRows_map_format (pid k : Nat) (fs : List String) (draw : List Nat)
    (hdraw : draw.length = k * fs.length) :
    (buildRows pid k fs draw).map (fun t => t.format) = formatSeq k fs := by
  unfold buildRows
  rw [List.map_map]
  have hcomp : ((fun t => t.format) ∘
      fun fp : String × Nat => (⟨pid, fp.2, fp.1, false⟩ : TaskAssignment))
        = Prod.fst := rfl
  rw [hcomp, List.map_fst_zip]
  rw [formatSeq_length, hdraw]

theorem buildRows_map_promptId (pid k : Nat) (fs : List String) (draw : List Nat)
    (hdraw : draw.length = k * fs.length) :
    (buildRows pid k fs draw).map (fun t => t.promptId) = draw := by
  unfold buildRows
  rw [List.map_map]
  have hcomp : ((fun t => t.promptId) ∘
      fun fp : String × Nat => (⟨pid, fp.2, fp.1, false⟩ : TaskAssignment))
        = Prod.snd := rfl
  rw [hcomp, List.map_snd_zip]
  rw [formatSeq_length, hdraw]

theorem buildRows_mem (pid k : Nat) (fs : List String) (draw : List Nat)
    (t : TaskAssignment) (ht : t ∈ buildRows pid k fs draw) :
    t.participantId = pid ∧ t.completed = false := by
  simp only [buildRows, List.mem_map] at ht
  obtain ⟨fp, _, rfl⟩ := ht
  exact ⟨rfl, rfl⟩

/-- The successful within-subjects registration, in closed form: the
participant row is appended and the batch built by the assignment loop
is appended to `task_assignments`. -/
theorem register_within_eq (db : Store) (pid code : String) (sh : List Nat)
    (hpid : pid ≠ "")
    (hfresh : db.participants.find? (fun p => p.prolificPid == pid) = none)
    (hdesign : db.designType = "within")
    (hpool : db.annotationsPerFormat * db.formatsEnabled.length ≤ sh.length) :
    register db pid sh code
      = (.ok (db.participants.length + 1) code "all" db.designType,
         { db with
            participants := db.participants ++
              [⟨db.participants.length + 1, pid, "all", db.designType, code,
                false, false, none⟩],
            taskAssignments := db.taskAssignments ++
              buildRows (db.participants.length + 1) db.annotationsPerFormat
                db.formatsEnabled
                (sh.take (db.annotationsPerFormat * db.formatsEnabled.length)) }) := by
  have hlen : (sh.take (db.annotationsPerFormat * db.formatsEnabled.length)).length
      = db.annotationsPerFormat * db.formatsEnabled.length := by
    rw [List.length_take]
    omega
  have hnot : ¬((sh.take (db.annotationsPerFormat * db.formatsEnabled.length)).length
      < db.annotationsPerFormat * db.formatsEnabled.length) := by
    rw [hlen]
    omega
  simp [register, hpid, hfresh, hdesign, hnot, hpool]

/-- The rows of the freshly registered participant are exactly the new
batch, provided no pre-existing row referenced the new id. -/
theorem participantTasks_register_within (db : Store) (pid code : String)
    (sh : List Nat)
    (hpid : pid ≠ "")
    (hfresh : db.participants.find? (fun p => p.prolificPid == pid) = none)
    (hdesign : db.designType = "within")
    (hpool : db.annotationsPerFormat * db.formatsEnabled.length ≤ sh.length)
    (hnew : ∀ t ∈ db.taskAssignments, t.participantId ≠ db.participants.length + 1) :
    participantTasks (register db pid sh code).2 (db.participants.length + 1)
      = buildRows (db.participants.length + 1) db.annotationsPerFormat
          db.formatsEnabled
          (sh.take (db.annotationsPerFormat * db.formatsEnabled.length)) := by
  rw [register_within_eq db pid code sh hpid hfresh hdesign hpool]
  show (db.taskAssignments ++ _).filter _ = _
  rw [List.filter_append]
  have h1 : db.taskAssignments.filter
      (fun t => t.participantId == db.participants.length + 1) = [] := by
    rw [List.filter_eq_nil_iff]
    intro t ht
    simp [hnew t ht]
  have h2 : (buildRows (db.participants.length + 1) db.annotationsPerFormat
      db.formatsEnabled
      (sh.take (db.annotationsPerFormat * db.formatsEnabled.length))).filter
        (fun t => t.participantId == db.participants.length + 1) = _ :=
    List.filter_eq_self.mpr (fun t ht => by
      simp [(buildRows_mem _ _ _ _ t ht).1])
  rw [h1, h2, List.nil_append]

/-- C1 — a successful within-subjects registration with
`annotations_per_format = k` and `m` (duplicate-free) enabled formats
creates exactly `k*m` task-assignment rows for the new participant,
exactly `k` per enabled format, all with `completed = false`. -/
theorem register_within_task_count (db : Store) (pid code : String)
    (sh : List Nat) (k m : Nat)
    (hpid : pid ≠ "")
    (hfresh : db.participants.find? (fun p => p.prolificPid == pid) = none)
    (hdesign : db.designType = "within")
    (hk : db.annotationsPerFormat = k)
    (hm : db.formatsEnabled.length = m)
    (hnd : db.formatsEnabled.Nodup)
    (hpool : k * m ≤ sh.length)
    (hnew : ∀ t ∈ db.taskAssignments,
      t.participantId ≠ db.participants.length + 1) :
    (register db pid sh code).1
        = .ok (db.participants.length + 1) code "all" db.designType ∧
    (participantTasks (register db pid sh code).2
        (db.participants.length + 1)).length = k * m ∧
    (∀ f ∈ db.formatsEnabled,
      ((participantTasks (register db pid sh code).2
          (db.participants.length + 1)).filter
            (fun t => t.format == f)).length = k) ∧
    (∀ t ∈ participantTasks (register db pid sh code).2
        (db.participants.length + 1), t.completed = false) := by
  subst hk
  subst hm
  have hdrawlen : (sh.take (db.annotationsPerFormat * db.formatsEnabled.length)).length
      = db.annotationsPerFormat * db.formatsEnabled.length := by
    rw [List.length_take]
    omega
  have hPT := participantTasks_register_within db pid code sh hpid hfresh
    hdesign hpool hnew
  refine ⟨?_, ?_, ?_, ?_⟩
  · rw [register_within_eq db pid code sh hpid hfresh hdesign hpool]
  · rw [hPT, buildRows_length _ _ _ _ hdrawlen]
  · intro f hf
    rw [hPT]
    have h1 : ((buildRows (db.participants.length + 1) db.annotationsPerFormat
        db.formatsEnabled
        (sh.take (db.annotationsPerFormat * db.formatsEnabled.length))).filter
          (fun t => t.format == f)).length
        = ((buildRows (db.participants.length + 1) db.annotationsPerFormat
            db.formatsEnabled
            (sh.take (db.annotationsPerFormat * db.formatsEnabled.length))).map
              (fun t => t.format)).countP (fun s => s == f) := by
      rw [List.countP_map, ← List.countP_eq_length_filter]
      rfl
    rw [h1, buildRows_map_format _ _ _ _ hdrawlen]
    have h2 : (formatSeq db.annotationsPerFormat db.formatsEnabled).countP
        (fun s => s == f)
        = (formatSeq db.annotationsPerFormat db.formatsEnabled).count f := rfl
    rw [h2, formatSeq_count, List.count_eq_one_of_mem hnd hf, mul_one]
  · intro t ht
    rw [hPT] at ht
    exact (buildRows_mem _ _ _ _ t ht).2

/-- Closed instance of `register_within_task_count` at the spec's
concrete scenario (`k = 2`, formats pairwise and bws, pool of 10). -/
theorem register_within_task_count_witness :
    (participantTasks (register ⟨"within", ["pairwise", "bws"], 2,
        [10, 11, 12, 13, 14, 15, 16, 17, 18, 19], [], [], []⟩ "P1"
        [13, 11, 19, 12, 10, 14, 15, 16, 17, 18] "C1").2 1).length = 2 * 2 :=
  (register_within_task_count ⟨"within", ["pairwise", "bws"], 2,
      [10, 11, 12, 13, 14, 15, 16, 17, 18, 19], [], [], []⟩ "P1" "C1"
      [13, 11, 19, 12, 10, 14, 15, 16, 17, 18] 2 2 (by decide) (by decide)
      (by decide) (by decide) (by decide) (by decide) (by decide)
      (by decide)).2.1

/-- C2 — in a successful within-subjects registration the drawn prompts
are pairwise distinct: the participant's `k*m` assignment rows reference
`k*m` distinct prompt ids, so no prompt carries more than one format for
that participant. -/
theorem register_within_distinct_prompts (db : Store) (pid code : String)
    (sh : List Nat) (k m : Nat)
    (hpid : pid ≠ "")
    (hfresh : db.participants.find? (fun p => p.prolificPid == pid) = none)
    (hdesign : db.designType = "within")
    (hk : db.annotationsPerFormat = k)
    (hm : db.formatsEnabled.length = m)
    (hshnd : sh.Nodup)
    (hpool : k * m ≤ sh.length)
    (hnew : ∀ t ∈ db.taskAssignments,
      t.participantId ≠ db.participants.length + 1) :
    ((participantTasks (register db pid sh code).2
        (db.participants.length + 1)).map (fun t => t.promptId)).Nodup ∧
    (participantTasks (register db pid sh code).2
        (db.participants.length + 1)).length = k * m ∧
    (∀ pr : Nat,
      ((participantTasks (register db pid sh code).2
          (db.participants.length + 1)).filter
            (fun t => t.promptId == pr)).length ≤ 1) := by
  subst hk
  subst hm
  have hdrawlen : (sh.take (db.annotationsPerFormat * db.formatsEnabled.length)).length
      = db.annotationsPerFormat * db.formatsEnabled.length := by
    rw [List.length_take]
    omega
  have hPT := participantTasks_register_within db pid code sh hpid hfresh
    hdesign hpool hnew
  have hmap := buildRows_map_promptId (db.participants.length + 1)
    db.annotationsPerFormat db.formatsEnabled
    (sh.take (db.annotationsPerFormat * db.formatsEnabled.length)) hdrawlen
  have hnddraw : (sh.take (db.annotationsPerFormat * db.formatsEnabled.length)).Nodup :=
    (List.take_sublist _ _).nodup hshnd
  refine ⟨?_, ?_, ?_⟩
  · rw [hPT, hmap]
    exact hnddraw
  · rw [hPT, buildRows_length _ _ _ _ hdrawlen]
  · intro pr
    rw [hPT]
    have h1 : ((buildRows (db.participants.length + 1) db.annotationsPerFormat
        db.formatsEnabled
        (sh.take (db.annotationsPerFormat * db.formatsEnabled.length))).filter
          (fun t => t.promptId == pr)).length
        = ((buildRows (db.participants.length + 1) db.annotationsPerFormat
            db.formatsEnabled
            (sh.take (db.annotationsPerFormat * db.formatsEnabled.length))).map
              (fun t => t.promptId)).countP (fun x => x == pr) := by
      rw [List.countP_map, ← List.countP_eq_length_filter]
      rfl
    rw [h1, hmap]
    exact List.nodup_iff_count_le_one.mp hnddraw pr

/-- Closed instance of `register_within_distinct_prompts`: the four rows
of the scenario registration reference four distinct prompt ids. -/
theorem register_within_distinct_prompts_witness :
    ((participantTasks (register ⟨"within", ["pairwise", "bws"], 2,
        [10, 11, 12, 13, 14, 15, 16, 17, 18, 19], [], [], []⟩ "P1"
        [13, 11, 19, 12, 10, 14, 15, 16, 17, 18] "C1").2 1).map
          (fun t => t.promptId)).Nodup :=
  (register_within_distinct_prompts ⟨"within", ["pairwise", "bws"], 2,
      [10, 11, 12, 13, 14, 15, 16, 17, 18, 19], [], [], []⟩ "P1" "C1"
      [13, 11, 19, 12, 10, 14, 15, 16, 17, 18] 2 2 (by decide) (by decide)
      (by decide) (by decide) (by decide) (by decide) (by decide)
      (by decide)).1

/-- First entry with minimal second component — the head of a stable
ascending sort. -/
def firstMinEntry : List (String × Nat) → Option (String × Nat)
  | [] => none
  | x :: xs =>
    match firstMinEntry xs with
    | none => some x
    | some y => if x.2 ≤ y.2 then some x else some y

theorem head?_orderedInsert (x : String × Nat) (s : List (String × Nat)) :
    (List.orderedInsert (fun a b : String × Nat => a.2 ≤ b.2) x s).head?
      = match s.head? with
        | none => some x
        | some y => if x.2 ≤ y.2 then some x else some y := by
  cases s with
  | nil => rfl
  | cons y ys =>
    by_cases h : x.2 ≤ y.2 <;> simp [List.orderedInsert, h]

theorem head?_insertionSort (l : List (String × Nat)) :
    (List.insertionSort (fun a b : String × Nat => a.2 ≤ b.2) l).head?
      = firstMinEntry l := by
  induction l with
  | nil => rfl
  | cons x xs ih =>
    simp only [List.insertionSort]
    rw [head?_orderedInsert, ih]
    rfl

theorem firstMin_map_spec (c : String → Nat) (fs : List String)
    (hne : fs ≠ []) :
    ∃ fmt l₁ l₂,
      firstMinEntry (fs.map fun f => (f, c f)) = some (fmt, c fmt) ∧
      fs = l₁ ++ fmt :: l₂ ∧
      (∀ g ∈ fs, c fmt ≤ c g) ∧
      (∀ g ∈ l₁, c fmt < c g) := by
  induction fs with
  | nil => exact absurd rfl hne
  | cons a fs ih =>
    by_cases hfse : fs = []
    · subst hfse
      refine ⟨a, [], [], by simp [firstMinEntry], rfl, ?_, by simp⟩
      intro g hg
      simp only [List.mem_singleton] at hg
      subst hg
      exact le_refl _
    · obtain ⟨fmt, l₁, l₂, h1, h2, h3, h4⟩ := ih hfse
      simp only [List.map_cons, firstMinEntry, h1]
      by_cases hle : c a ≤ c fmt
      · refine ⟨a, [], fs, ?_, rfl, ?_, by simp⟩
        · simp [hle]
        · intro g hg
          rcases List.mem_cons.mp hg with hg | hg
          · subst hg; exact le_refl _
          · exact le_trans hle (h3 g hg)
      · have hlt : c fmt < c a := Nat.lt_of_not_le fun hc => hle hc
        refine ⟨fmt, a :: l₁, l₂, ?_, by rw [h2, List.cons_append], ?_, ?_⟩
        · simp [hle]
        · intro g hg
          rcases List.mem_cons.mp hg with hg | hg
          · subst hg; exact le_of_lt hlt
          · exact h3 g hg
        · intro g hg
          rcases List.mem_cons.mp hg with hg | hg
          · subst hg; exact hlt
          · exact h4 g hg

/-- The balancer picks the first enabled format attaining the minimal
participant count: it splits `formats_enabled` as `l₁ ++ fmt :: l₂`
where everything in `l₁` has a strictly larger count. -/
theorem chooseBetweenFormat_spec (db : Store)
    (hne : db.formatsEnabled ≠ []) :
    ∃ fmt l₁ l₂,
      chooseBetweenFormat db = some fmt ∧
      db.formatsEnabled = l₁ ++ fmt :: l₂ ∧
      (∀ g ∈ db.formatsEnabled, countFormat db fmt ≤ countFormat db g) ∧
      (∀ g ∈ l₁, countFormat db fmt < countFormat db g) := by
  obtain ⟨fmt, l₁, l₂, h1, h2, h3, h4⟩ :=
    firstMin_map_spec (countFormat db) db.formatsEnabled hne
  refine ⟨fmt, l₁, l₂, ?_, h2, h3, h4⟩
  unfold chooseBetweenFormat
  rw [head?_insertionSort, h1]
  rfl

/-- C6 — a between-subjects registration assigns the enabled format with
the fewest current participants, ties resolved in enabled-formats order
(the chosen format is preceded only by strictly-more-loaded ones); and
in the concrete two-registrations-from-zero scenario the second
participant gets a different format than the first. -/
theorem register_between_balancer (db : Store) (pid code : String)
    (sh : List Nat)
    (hpid : pid ≠ "")
    (hfresh : db.participants.find? (fun p => p.prolificPid == pid) = none)
    (hdesign : db.designType = "between")
    (hne : db.formatsEnabled ≠ [])
    (hnd : db.formatsEnabled.Nodup) :
    (∃ fmt l₁ l₂,
      register db pid sh code
        = (.ok (db.participants.length + 1) code fmt db.designType,
           { db with participants := db.participants ++
              [⟨db.participants.length + 1, pid, fmt, db.designType, code,
                false, false, none⟩] }) ∧
      db.formatsEnabled = l₁ ++ fmt :: l₂ ∧
      (∀ g ∈ db.formatsEnabled, countFormat db fmt ≤ countFormat db g) ∧
      (∀ g ∈ l₁, countFormat db fmt < countFormat db g)) ∧
    ((register ⟨"between", ["pairwise", "bws"], 2, [10, 11], [], [], []⟩
        "P1" [] "C1").1 = .ok 1 "C1" "pairwise" "between" ∧
      (register (register ⟨"between", ["pairwise", "bws"], 2, [10, 11],
          [], [], []⟩ "P1" [] "C1").2 "P2" [] "C2").1
        = .ok 2 "C2" "bws" "between" ∧
      ("pairwise" : String) ≠ "bws") := by
  constructor
  · obtain ⟨fmt, l₁, l₂, h1, h2, h3, h4⟩ := chooseBetweenFormat_spec db hne
    refine ⟨fmt, l₁, l₂, ?_, h2, h3, h4⟩
    have hw : ¬(db.designType = "within") := by
      rw [hdesign]
      decide
    simp [register, hpid, hfresh, hw, h1]
  · exact ⟨by decide, by decide, by decide⟩

/-- Closed instance of `register_between_balancer` at the two-format
store with no prior participants. -/
theorem register_between_balancer_witness :
    ∃ fmt l₁ l₂,
      register ⟨"between", ["pairwise", "bws"], 2, [10, 11], [], [], []⟩
          "P1" [] "C1"
        = (.ok 1 "C1" fmt "between",
           { designType := "between", formatsEnabled := ["pairwise", "bws"],
             annotationsPerFormat := 2, prompts := [10, 11],
             participants := [⟨1, "P1", fmt, "between", "C1", false, false, none⟩],
             taskAssignments := [], annotations := [] }) ∧
      (["pairwise", "bws"] : List String) = l₁ ++ fmt :: l₂ ∧
      (∀ g ∈ (["pairwise", "bws"] : List String),
        countFormat ⟨"between", ["pairwise", "bws"], 2, [10, 11], [], [], []⟩ fmt
          ≤ countFormat ⟨"between", ["pairwise", "bws"], 2, [10, 11], [], [], []⟩ g) ∧
      (∀ g ∈ l₁,
        countFormat ⟨"between", ["pairwise", "bws"], 2, [10, 11], [], [], []⟩ fmt
          < countFormat ⟨"between", ["pairwise", "bws"], 2, [10, 11], [], [], []⟩ g) :=
  (register_between_balancer
    ⟨"between", ["pairwise", "bws"], 2, [10, 11], [], [], []⟩ "P1" "C1" []
    (by decide) (by decide) (by decide) (by decide) (by decide)).1

/-- One state-changing engine operation, any arguments. -/
inductive Step : Store → Store → Prop where
  | reg (db : Store) (pid : String) (sh : List Nat) (code : String) :
      Step db (register db pid sh code).2
  | sub (db : Store) (pid promptId : Nat) (format : String) :
      Step db (submit db pid promptId format).2
  | consent (db : Store) (pid : Nat) : Step db (recordConsent db pid).2
  | instructions (db : Store) (pid : Nat) :
      Step db (recordInstructionsDone db pid).2
  | complete (db : Store) (pid : Nat) (now : String) :
      Step db (markComplete db pid now).2

theorem register_annotations (db : Store) (pid : String) (sh : List Nat)
    (code : String) : (register db pid sh code).2.annotations = db.annotations := by
  by_cases hpid : pid = ""
  · simp [register, hpid]
  · simp only [register, if_neg hpid]
    cases hfind : db.participants.find? (fun p => p.prolificPid == pid) with
    | some p => simp
    | none =>
      by_cases hw : db.designType = "within"
      · simp only [if_pos hw]
        by_cases hlen :
            (sh.take (db.annotationsPerFormat * db.formatsEnabled.length)).length
              < db.annotationsPerFormat * db.formatsEnabled.length
        · rw [if_pos hlen]
        · rw [if_neg hlen]
      · simp only [if_neg hw]
        cases hch : chooseBetweenFormat db with
        | none => rfl
        | some fm => rfl

theorem annot_count_le_step (db db' : Store) (h : Step db db') (pid : Nat) :
    (participantAnnotations db pid).length
      ≤ (participantAnnotations db' pid).length := by
  cases h with
  | reg rpid sh code =>
    simp [participantAnnotations, register_annotations]
  | sub spid promptId format =>
    by_cases hv : spid = 0 ∨ promptId = 0 ∨ format = ""
    · simp [submit, hv]
    · simp only [submit, if_neg hv]
      cases hfind : db.participants.find? (fun p => p.id == spid) with
      | none => simp
      | some P =>
        by_cases hd : P.designType = "within" <;>
          simp [participantAnnotations, hd, List.filter_append]
  | consent cpid => simp [participantAnnotations, recordConsent]
  | instructions ipid => simp [participantAnnotations, recordInstructionsDone]
  | complete cpid now =>
    cases hfind : db.participants.find? (fun p => p.id == cpid) with
    | none => simp [participantAnnotations, markComplete, hfind]
    | some P => simp [participantAnnotations, markComplete, hfind]

theorem annot_count_le_chain (db₁ db₂ : Store)
    (h : Relation.ReflTransGen Step db₁ db₂) (pid : Nat) :
    (participantAnnotations db₁ pid).length
      ≤ (participantAnnotations db₂ pid).length := by
  induction h with
  | refl => exact le_refl _
  | tail hstep hlast ih => exact le_trans ih (annot_count_le_step _ _ hlast pid)

/-- C5 counterexample — reachable by register + two submits of the same
task: `progress` answers `completed = 2` although only one assignment
row has `completed = true` (and `total = 1`), because the code counts
Annotation rows, not completed flags; `completed ≤ total` fails too. -/
theorem progress_flag_count_cex :
    progress (submit (submit (register
        ⟨"within", ["pairwise"], 1, [10], [], [], []⟩ "P1" [10] "C1").2
        1 10 "pairwise").2 1 10 "pairwise").2 1 = .ok 2 1 ∧
    ((submit (submit (register
        ⟨"within", ["pairwise"], 1, [10], [], [], []⟩ "P1" [10] "C1").2
        1 10 "pairwise").2 1 10 "pairwise").2.taskAssignments.filter
          (fun t => t.participantId == 1 && t.completed)).length = 1 ∧
    ¬(2 ≤ 1) := by decide

/-- C5 (amended) — for a within-subjects participant `progress` returns
`(completed, total)` with `total` the count of the participant's
task-assignment rows and `completed` the count of the participant's
**annotation** rows; that annotation count never decreases under any
sequence of engine operations (so successive `progress` reads are
non-decreasing), but it is not bounded by `total`. -/
theorem progress_within_amended (db : Store) (pid : Nat) (P : Participant)
    (hfind : db.participants.find? (fun p => p.id == pid) = some P)
    (hdesign : P.designType = "within") :
    progress db pid
      = .ok (participantAnnotations db pid).length
          (participantTasks db pid).length ∧
    (∀ db₁ db₂ : Store, Relation.ReflTransGen Step db₁ db₂ →
      (participantAnnotations db₁ pid).length
        ≤ (participantAnnotations db₂ pid).length) := by
  refine ⟨by simp [progress, hfind, hdesign], ?_⟩
  intro db₁ db₂ h
  exact annot_count_le_chain db₁ db₂ h pid

/-- Closed instance of `progress_within_amended` at the
duplicate-submission store: progress reports the annotation count 2
against total 1. -/
theorem progress_within_amended_witness :
    progress ⟨"within", ["pairwise"], 1, [10],
        [⟨1, "P1", "all", "within", "C1", false, false, none⟩],
        [⟨1, 10, "pairwise", true⟩],
        [⟨1, 1, 10, "pairwise"⟩, ⟨2, 1, 10, "pairwise"⟩]⟩ 1 = .ok 2 1 := by
  have h := (progress_within_amended ⟨"within", ["pairwise"], 1, [10],
      [⟨1, "P1", "all", "within", "C1", false, false, none⟩],
      [⟨1, 10, "pairwise", true⟩],
      [⟨1, 1, 10, "pairwise"⟩, ⟨2, 1, 10, "pairwise"⟩]⟩ 1
      ⟨1, "P1", "all", "within", "C1", false, false, none⟩ (by decide) rfl).1
  exact h

/-- C7 — the within-subjects build is not atomic in the code: with a
single-prompt pool and two required rows the registration request fails
(500), yet the participant row and a truncated one-row batch remain in
the store. -/
theorem register_insufficient_pool_partial_write :
    (register ⟨"within", ["pairwise", "bws"], 1, [10], [], [], []⟩
        "P1" [10] "C1").1 = .error ∧
    (register ⟨"within", ["pairwise", "bws"], 1, [10], [], [], []⟩
        "P1" [10] "C1").2
      = ⟨"within", ["pairwise", "bws"], 1, [10],
         [⟨1, "P1", "all", "within", "C1", false, false, none⟩],
         [⟨1, 10, "pairwise", false⟩], []⟩ := by decide

/-- The participant-driven annotation loop: ask for the next task, and
while it is a task (not done), submit an annotation for exactly the
returned (promptId, format) and repeat.  Returns the list of tasks
served, in order, and the final store.  The random pick passed to
`getNextTask` is irrelevant on the within-subjects path. -/
def annotateLoop (pid : Nat) : Nat → Store → List (Nat × String) × Store
  | 0, db => ([], db)
  | fuel + 1, db =>
    match getNextTask db pid (fun _ => none) with
    | .task pr f =>
      let step := annotateLoop pid fuel (submit db pid pr f).2
      ((pr, f) :: step.1, step.2)
    | _ => ([], db)

/-- Well-formedness of a within-subjects participant's queue, as
established by registration: the participant exists with design
`within`, ids pass the truthiness checks, every assigned prompt is in
the prompt table (so the `JOIN prompts` drops nothing), and the
participant's (prompt, format) pairs are pairwise distinct (registration
draws distinct prompts). -/
structure WithinWF (db : Store) (pid : Nat) : Prop where
  pid_pos : pid ≠ 0
  found : (db.participants.find? (fun p => p.id == pid)).map
      Participant.designType = some "within"
  prompts_present : ∀ t ∈ participantTasks db pid,
    db.prompts.contains t.promptId = true
  prompts_pos : ∀ t ∈ participantTasks db pid, t.promptId ≠ 0
  fmt_ne : ∀ t ∈ participantTasks db pid, t.format ≠ ""
  pairs_nodup : ((participantTasks db pid).map
      fun t => (t.promptId, t.format)).Nodup

/-- The (promptId, format) pair names an assignment still open for the
participant. -/
def pairIncomplete (db : Store) (pid : Nat) (x : Nat × String) : Prop :=
  ∃ t ∈ incompleteTasks db pid, t.promptId = x.1 ∧ t.format = x.2

/-- The completed-flag update applied row-wise by a within-subjects
submit. -/
def flipRow (pid pr : Nat) (fm : String) (t : TaskAssignment) : TaskAssignment :=
  if t.participantId == pid && t.promptId == pr && t.format == fm
  then { t with completed := true } else t

theorem find?_task_eq (pid : Nat) (prompts : List Nat) :
    ∀ l : List TaskAssignment,
      (∀ t ∈ l, t.participantId = pid → prompts.contains t.promptId = true) →
      l.find? (fun t => t.participantId == pid && !t.completed
          && prompts.contains t.promptId)
        = ((l.filter fun t => t.participantId == pid).filter
            fun t => !t.completed).head? := by
  intro l
  induction l with
  | nil => intro _; rfl
  | cons t l ih =>
    intro hpres
    have ihl := ih fun u hu => hpres u (List.mem_cons_of_mem t hu)
    by_cases hA : t.participantId = pid
    · have hC := hpres t (List.mem_cons_self t l) hA
      have hAb : (t.participantId == pid) = true := by simp [hA]
      by_cases hB : t.completed = true
      · have hp : ¬(t.participantId == pid && !t.completed
            && prompts.contains t.promptId) = true := by
          rw [hB]
          simp
        rw [List.find?_cons_of_neg l hp,
          @List.filter_cons_of_pos _ (fun t => t.participantId == pid) t l hAb,
          @List.filter_cons_of_neg _ (fun t => !t.completed) t _
            (by simp [hB])]
        exact ihl
      · have hp : (t.participantId == pid && !t.completed
            && prompts.contains t.promptId) = true := by
          rw [hAb, hC]
          simp only [Bool.not_eq_true] at hB
          rw [hB]
          rfl
        rw [List.find?_cons_of_pos l hp,
          @List.filter_cons_of_pos _ (fun t => t.participantId == pid) t l hAb,
          @List.filter_cons_of_pos _ (fun t => !t.completed) t _
            (by simp [hB])]
        rfl
    · have hp : ¬(t.participantId == pid && !t.completed
          && prompts.contains t.promptId) = true := by
        simp [hA]
      rw [List.find?_cons_of_neg l hp,
        @List.filter_cons_of_neg _ (fun t => t.participantId == pid) t l
          (by simp [hA])]
      exact ihl

/-- On the within-subjects path, `getNextTask` answers with the head of
the participant's `assigned_at`-ordered list of incomplete assignments
(the earliest-assigned open task), or done when none remains. -/
theorem getNextTask_within_eq (db : Store) (pid : Nat) (P : Participant)
    (pick : List Nat → Option Nat)
    (hfind : db.participants.find? (fun p => p.id == pid) = some P)
    (hdesign : P.designType = "within")
    (hpres : ∀ t ∈ participantTasks db pid,
      db.prompts.contains t.promptId = true) :
    getNextTask db pid pick
      = match (incompleteTasks db pid).head? with
        | some t => .task t.promptId t.format
        | none => .done := by
  simp only [getNextTask, hfind, if_pos hdesign]
  have h := find?_task_eq pid db.prompts db.taskAssignments
    (fun t ht hA => hpres t (by simp [participantTasks, List.mem_filter, ht, hA]))
  rw [h]
  rfl

theorem submit_within_store (db : Store) (pid pr : Nat) (fm : String)
    (P : Participant)
    (hpid : pid ≠ 0) (hpr : pr ≠ 0) (hfm : fm ≠ "")
    (hfind : db.participants.find? (fun p => p.id == pid) = some P)
    (hdesign : P.designType = "within") :
    (submit db pid pr fm).2
      = { db with
          annotations := db.annotations
            ++ [⟨db.annotations.length + 1, pid, pr, fm⟩],
          taskAssignments := db.taskAssignments.map (flipRow pid pr fm) } := by
  have hcond : ¬(pid = 0 ∨ pr = 0 ∨ fm = "") := by simp [hpid, hpr, hfm]
  simp only [submit, if_neg hcond, hfind, if_pos hdesign]
  rfl

theorem flipRow_participantId (pid pr : Nat) (fm : String) (t : TaskAssignment) :
    (flipRow pid pr fm t).participantId = t.participantId := by
  unfold flipRow
  split <;> rfl

theorem flipRow_pair (pid pr : Nat) (fm : String) (t : TaskAssignment) :
    ((flipRow pid pr fm t).promptId, (flipRow pid pr fm t).format)
      = (t.promptId, t.format) := by
  unfold flipRow
  split <;> rfl

theorem flipRow_eq_self (pid pr : Nat) (fm : String) (t : TaskAssignment)
    (h : ¬(t.participantId == pid && t.promptId == pr && t.format == fm) = true) :
    flipRow pid pr fm t = t := by
  unfold flipRow
  rw [if_neg h]

theorem participantTasks_submit_within (db : Store) (pid pr : Nat)
    (fm : String) (P : Participant)
    (hpid : pid ≠ 0) (hpr : pr ≠ 0) (hfm : fm ≠ "")
    (hfind : db.participants.find? (fun p => p.id == pid) = some P)
    (hdesign : P.designType = "within") :
    participantTasks (submit db pid pr fm).2 pid
      = (participantTasks db pid).map (flipRow pid pr fm) := by
  rw [submit_within_store db pid pr fm P hpid hpr hfm hfind hdesign]
  show (db.taskAssignments.map (flipRow pid pr fm)).filter _ = _
  rw [List.filter_map]
  show List.map _ (List.filter _ db.taskAssignments) = _
  unfold participantTasks
  congr 1
  apply List.filter_congr
  intro t _
  show ((flipRow pid pr fm t).participantId == pid) = (t.participantId == pid)
  rw [flipRow_participantId]

theorem countP_eq_le_one_of_nodup {α : Type} [DecidableEq α] :
    ∀ l : List α, l.Nodup → ∀ a : α, l.countP (fun x => decide (x = a)) ≤ 1 := by
  intro l
  induction l with
  | nil => intro _ a; simp
  | cons b l ih =>
    intro hnd a
    have hnd' := List.nodup_cons.mp hnd
    rw [List.countP_cons]
    by_cases hba : b = a
    · subst hba
      have hz : l.countP (fun x => decide (x = b)) = 0 := by
        rw [List.countP_eq_length_filter, List.length_eq_zero,
          List.filter_eq_nil_iff]
        intro x hx
        simp only [decide_eq_true_eq]
        intro hxb
        subst hxb
        exact hnd'.1 hx
      simp [hz]
    · have := ih hnd'.2 a
      simp only [decide_eq_true_eq]
      rw [if_neg hba]
      omega

theorem flipRow_promptId (pid pr : Nat) (fm : String) (t : TaskAssignment) :
    (flipRow pid pr fm t).promptId = t.promptId :=
  congrArg Prod.fst (flipRow_pair pid pr fm t)

theorem flipRow_format (pid pr : Nat) (fm : String) (t : TaskAssignment) :
    (flipRow pid pr fm t).format = t.format :=
  congrArg Prod.snd (flipRow_pair pid pr fm t)

theorem incompleteTasks_submit_length (db : Store) (pid : Nat)
    (P : Participant) (t0 : TaskAssignment) (rest : List TaskAssignment)
    (hpid : pid ≠ 0)
    (hfind : db.participants.find? (fun p => p.id == pid) = some P)
    (hdesign : P.designType = "within")
    (hpr : t0.promptId ≠ 0) (hfm : t0.format ≠ "")
    (hnd : ((participantTasks db pid).map fun t => (t.promptId, t.format)).Nodup)
    (hinc : incompleteTasks db pid = t0 :: rest) :
    (incompleteTasks (submit db pid t0.promptId t0.format).2 pid).length
      = rest.length := by
  have hPT := participantTasks_submit_within db pid t0.promptId t0.format P
    hpid hpr hfm hfind hdesign
  have ht0mem : t0 ∈ incompleteTasks db pid := by
    rw [hinc]
    exact List.mem_cons_self t0 rest
  obtain ⟨ht0PT, ht0c⟩ := List.mem_filter.mp ht0mem
  have ht0pid : (t0.participantId == pid) = true :=
    (List.mem_filter.mp ht0PT).2
  have step1 : (incompleteTasks (submit db pid t0.promptId t0.format).2 pid).length
      = (participantTasks db pid).countP
          (fun t => !(flipRow pid t0.promptId t0.format t).completed) := by
    show ((participantTasks (submit db pid t0.promptId t0.format).2 pid).filter
        (fun t => !t.completed)).length = _
    rw [hPT, ← List.countP_eq_length_filter, List.countP_map]
    rfl
  have step2 : (participantTasks db pid).countP
        (fun t => !(flipRow pid t0.promptId t0.format t).completed)
      = (participantTasks db pid).countP
          (fun t => !t.completed
            && !(t.participantId == pid && t.promptId == t0.promptId
                  && t.format == t0.format)) := by
    apply List.countP_congr
    intro t _
    by_cases hm : (t.participantId == pid && t.promptId == t0.promptId
        && t.format == t0.format) = true
    · unfold flipRow
      rw [if_pos hm, hm]
      simp
    · rw [flipRow_eq_self pid t0.promptId t0.format t hm]
      simp only [Bool.not_eq_true] at hm
      rw [hm]
      simp
  have step3 := countP_and_split (fun t : TaskAssignment => !t.completed)
    (fun t => t.participantId == pid && t.promptId == t0.promptId
      && t.format == t0.format) (participantTasks db pid)
  have step4 : (participantTasks db pid).countP (fun t => !t.completed)
      = rest.length + 1 := by
    rw [List.countP_eq_length_filter]
    show (incompleteTasks db pid).length = _
    rw [hinc]
    simp
  have step5 : (participantTasks db pid).countP
      (fun t => !t.completed
        && (t.participantId == pid && t.promptId == t0.promptId
              && t.format == t0.format)) = 1 := by
    have hge : 0 < (participantTasks db pid).countP
        (fun t => !t.completed
          && (t.participantId == pid && t.promptId == t0.promptId
                && t.format == t0.format)) := by
      rw [List.countP_pos_iff]
      exact ⟨t0, ht0PT, by simp [ht0c, ht0pid]⟩
    have hle : (participantTasks db pid).countP
        (fun t => !t.completed
          && (t.participantId == pid && t.promptId == t0.promptId
                && t.format == t0.format))
        ≤ (participantTasks db pid).countP
            (fun t => decide ((t.promptId, t.format)
              = (t0.promptId, t0.format))) := by
      apply List.countP_mono_left
      intro t _ ht
      simp only [Bool.and_eq_true, beq_iff_eq] at ht
      simp [Prod.ext_iff, ht.2.1.2, ht.2.2]
    have hcount : (participantTasks db pid).countP
        (fun t => decide ((t.promptId, t.format) = (t0.promptId, t0.format)))
        = ((participantTasks db pid).map
            fun t => (t.promptId, t.format)).countP
              (fun x => decide (x = (t0.promptId, t0.format))) := by
      rw [List.countP_map]
      rfl
    have hndle := countP_eq_le_one_of_nodup _ hnd (t0.promptId, t0.format)
    omega
  omega

theorem incompleteTasks_submit_mem (db : Store) (pid : Nat)
    (P : Participant) (t0 : TaskAssignment)
    (hpid : pid ≠ 0)
    (hfind : db.participants.find? (fun p => p.id == pid) = some P)
    (hdesign : P.designType = "within")
    (hpr : t0.promptId ≠ 0) (hfm : t0.format ≠ "") :
    ∀ t' ∈ incompleteTasks (submit db pid t0.promptId t0.format).2 pid,
      t' ∈ incompleteTasks db pid ∧
      ¬(t'.promptId = t0.promptId ∧ t'.format = t0.format) := by
  have hPT := participantTasks_submit_within db pid t0.promptId t0.format P
    hpid hpr hfm hfind hdesign
  intro t' ht'
  have ht'' : t' ∈ ((participantTasks db pid).map
        (flipRow pid t0.promptId t0.format)).filter (fun t => !t.completed) := by
    have h0 : incompleteTasks (submit db pid t0.promptId t0.format).2 pid
        = ((participantTasks db pid).map
            (flipRow pid t0.promptId t0.format)).filter
              (fun t => !t.completed) := by
      unfold incompleteTasks
      rw [hPT]
    rw [h0] at ht'
    exact ht'
  obtain ⟨hmem, hcBool⟩ := List.mem_filter.mp ht''
  obtain ⟨t, htPT, rfl⟩ := List.mem_map.mp hmem
  have htpid : (t.participantId == pid) = true := (List.mem_filter.mp htPT).2
  have hpm : ¬(t.participantId == pid && t.promptId == t0.promptId
      && t.format == t0.format) = true := by
    intro hm
    unfold flipRow at hcBool
    rw [if_pos hm] at hcBool
    simp at hcBool
  have heq := flipRow_eq_self pid t0.promptId t0.format t hpm
  rw [heq] at hcBool ⊢
  refine ⟨List.mem_filter.mpr ⟨htPT, hcBool⟩, ?_⟩
  rintro ⟨h1, h2⟩
  apply hpm
  simp [htpid, h1, h2]

theorem withinWF_submit (db : Store) (pid : Nat) (P : Participant)
    (t0 : TaskAssignment)
    (hwf : WithinWF db pid)
    (hfind : db.participants.find? (fun p => p.id == pid) = some P)
    (hdesign : P.designType = "within")
    (hpr : t0.promptId ≠ 0) (hfm : t0.format ≠ "") :
    WithinWF (submit db pid t0.promptId t0.format).2 pid := by
  have hPT := participantTasks_submit_within db pid t0.promptId t0.format P
    hwf.pid_pos hpr hfm hfind hdesign
  have hstore := submit_within_store db pid t0.promptId t0.format P
    hwf.pid_pos hpr hfm hfind hdesign
  have hparts : (submit db pid t0.promptId t0.format).2.participants
      = db.participants := by rw [hstore]
  have hprompts : (submit db pid t0.promptId t0.format).2.prompts
      = db.prompts := by rw [hstore]
  refine ⟨hwf.pid_pos, ?_, ?_, ?_, ?_, ?_⟩
  · rw [hparts]
    exact hwf.found
  · intro t ht
    rw [hPT] at ht
    obtain ⟨u, hu, rfl⟩ := List.mem_map.mp ht
    rw [hprompts, flipRow_promptId]
    exact hwf.prompts_present u hu
  · intro t ht
    rw [hPT] at ht
    obtain ⟨u, hu, rfl⟩ := List.mem_map.mp ht
    rw [flipRow_promptId]
    exact hwf.prompts_pos u hu
  · intro t ht
    rw [hPT] at ht
    obtain ⟨u, hu, rfl⟩ := List.mem_map.mp ht
    rw [flipRow_format]
    exact hwf.fmt_ne u hu
  · rw [hPT, List.map_map]
    have hcongr : (participantTasks db pid).map
        ((fun t : TaskAssignment => (t.promptId, t.format))
          ∘ flipRow pid t0.promptId t0.format)
        = (participantTasks db pid).map
            (fun t : TaskAssignment => (t.promptId, t.format)) := by
      apply List.map_congr_left
      intro u _
      exact flipRow_pair pid t0.promptId t0.format u
    rw [hcongr]
    exact hwf.pairs_nodup

theorem withinWF_found (db : Store) (pid : Nat) (hwf : WithinWF db pid) :
    ∃ P, db.participants.find? (fun p => p.id == pid) = some P
      ∧ P.designType = "within" := by
  have h := hwf.found
  cases hf : db.participants.find? (fun p => p.id == pid) with
  | none => rw [hf] at h; simp at h
  | some P =>
    rw [hf] at h
    simp at h
    exact ⟨P, rfl, h⟩

/-- The annotation loop serves one still-open task per iteration and
stops exactly when the queue is exhausted: with `n` open assignments it
serves `n` pairwise-distinct tasks, each of which was open at the start,
and ends in the done state. -/
theorem annotateLoop_spec (pid : Nat) :
    ∀ (n : Nat) (db : Store), WithinWF db pid →
      (incompleteTasks db pid).length = n →
      ∀ fuel, n ≤ fuel →
        (annotateLoop pid fuel db).1.length = n ∧
        (∀ pick, getNextTask (annotateLoop pid fuel db).2 pid pick = .done) ∧
        (annotateLoop pid fuel db).1.Nodup ∧
        (∀ x ∈ (annotateLoop pid fuel db).1, pairIncomplete db pid x) := by
  intro n
  induction n with
  | zero =>
    intro db hwf hlen fuel _
    have hnil : incompleteTasks db pid = [] := List.length_eq_zero.mp hlen
    obtain ⟨P, hfind, hdes⟩ := withinWF_found db pid hwf
    have hdone : ∀ pick, getNextTask db pid pick = .done := by
      intro pick
      rw [getNextTask_within_eq db pid P pick hfind hdes hwf.prompts_present,
        hnil]
      rfl
    cases fuel with
    | zero =>
      exact ⟨rfl, hdone, List.nodup_nil, fun x hx => absurd hx (by simp [annotateLoop])⟩
    | succ f =>
      have hred : annotateLoop pid (f + 1) db = ([], db) := by
        simp [annotateLoop, hdone (fun _ => none)]
      rw [hred]
      exact ⟨rfl, hdone, List.nodup_nil, fun x hx => absurd hx (by simp)⟩
  | succ m ih =>
    intro db hwf hlen fuel hfuel
    obtain ⟨P, hfind, hdes⟩ := withinWF_found db pid hwf
    cases hinc : incompleteTasks db pid with
    | nil => rw [hinc] at hlen; simp at hlen
    | cons t0 rest =>
      have hlrest : rest.length = m := by
        rw [hinc] at hlen
        simpa using hlen
      have ht0inc : t0 ∈ incompleteTasks db pid := by
        rw [hinc]
        exact List.mem_cons_self t0 rest
      have ht0PT : t0 ∈ participantTasks db pid := (List.mem_filter.mp ht0inc).1
      have hpr : t0.promptId ≠ 0 := hwf.prompts_pos t0 ht0PT
      have hfm : t0.format ≠ "" := hwf.fmt_ne t0 ht0PT
      have hnext : ∀ pick, getNextTask db pid pick
          = .task t0.promptId t0.format := by
        intro pick
        rw [getNextTask_within_eq db pid P pick hfind hdes hwf.prompts_present,
          hinc]
        rfl
      cases fuel with
      | zero => omega
      | succ f =>
        have hwf' := withinWF_submit db pid P t0 hwf hfind hdes hpr hfm
        have hlen' : (incompleteTasks
            (submit db pid t0.promptId t0.format).2 pid).length = m := by
          rw [incompleteTasks_submit_length db pid P t0 rest hwf.pid_pos
            hfind hdes hpr hfm hwf.pairs_nodup hinc]
          exact hlrest
        obtain ⟨ih1, ih2, ih3, ih4⟩ :=
          ih (submit db pid t0.promptId t0.format).2 hwf' hlen' f (by omega)
        have hmem := incompleteTasks_submit_mem db pid P t0 hwf.pid_pos
          hfind hdes hpr hfm
        have hred : annotateLoop pid (f + 1) db
            = ((t0.promptId, t0.format) ::
                (annotateLoop pid f (submit db pid t0.promptId t0.format).2).1,
               (annotateLoop pid f (submit db pid t0.promptId t0.format).2).2) := by
          simp [annotateLoop, hnext (fun _ => none)]
        rw [hred]
        refine ⟨by simp [ih1], ih2, ?_, ?_⟩
        · rw [List.nodup_cons]
          refine ⟨?_, ih3⟩
          intro hx
          obtain ⟨t', ht', hp1, hp2⟩ := ih4 _ hx
          exact (hmem t' ht').2 ⟨hp1, hp2⟩
        · intro x hx
          rcases List.mem_cons.mp hx with hx | hx
          · subst hx
            exact ⟨t0, ht0inc, rfl, rfl⟩
          · obtain ⟨t', ht', hp1, hp2⟩ := ih4 x hx
            exact ⟨t', (hmem t' ht').1, hp1, hp2⟩

/-- C9 — for a within-subjects participant whose queue is fresh (all
assignments incomplete), the get-next-task / submit loop serves the
earliest-assigned open task each round (fourth conjunct), never repeats
a task, and reaches done after exactly `total` iterations, where `total`
is the participant's assignment count. -/
theorem within_loop_terminates (db : Store) (pid : Nat)
    (hwf : WithinWF db pid)
    (hfresh : ∀ t ∈ participantTasks db pid, t.completed = false) :
    ((annotateLoop pid (participantTasks db pid).length db).1.length
        = (participantTasks db pid).length) ∧
    (annotateLoop pid (participantTasks db pid).length db).1.Nodup ∧
    (∀ pick, getNextTask
        (annotateLoop pid (participantTasks db pid).length db).2 pid pick
          = .done) ∧
    (∀ pick, getNextTask db pid pick
        = match (incompleteTasks db pid).head? with
          | some t => TaskResponse.task t.promptId t.format
          | none => TaskResponse.done) := by
  have hfull : incompleteTasks db pid = participantTasks db pid := by
    unfold incompleteTasks
    exact List.filter_eq_self.mpr fun t ht => by simp [hfresh t ht]
  have hlen : (incompleteTasks db pid).length
      = (participantTasks db pid).length := by rw [hfull]
  obtain ⟨h1, h2, h3, _⟩ := annotateLoop_spec pid
    (participantTasks db pid).length db hwf hlen _ (le_refl _)
  obtain ⟨P, hfind, hdes⟩ := withinWF_found db pid hwf
  exact ⟨h1, h3, h2, fun pick =>
    getNextTask_within_eq db pid P pick hfind hdes hwf.prompts_present⟩

/-- Closed instance of `within_loop_terminates` at the four-task store a
scenario registration produces: the loop serves exactly four tasks. -/
theorem within_loop_terminates_witness :
    (annotateLoop 1 (participantTasks ⟨"within", ["pairwise", "bws"], 2,
        [10, 11, 12, 13, 14, 15, 16, 17, 18, 19],
        [⟨1, "P1", "all", "within", "C1", false, false, none⟩],
        [⟨1, 13, "pairwise", false⟩, ⟨1, 11, "pairwise", false⟩,
         ⟨1, 19, "bws", false⟩, ⟨1, 12, "bws", false⟩], []⟩ 1).length
        ⟨"within", ["pairwise", "bws"], 2,
        [10, 11, 12, 13, 14, 15, 16, 17, 18, 19],
        [⟨1, "P1", "all", "within", "C1", false, false, none⟩],
        [⟨1, 13, "pairwise", false⟩, ⟨1, 11, "pairwise", false⟩,
         ⟨1, 19, "bws", false⟩, ⟨1, 12, "bws", false⟩], []⟩).1.length
      = (participantTasks ⟨"within", ["pairwise", "bws"], 2,
        [10, 11, 12, 13, 14, 15, 16, 17, 18, 19],
        [⟨1, "P1", "all", "within", "C1", false, false, none⟩],
        [⟨1, 13, "pairwise", false⟩, ⟨1, 11, "pairwise", false⟩,
         ⟨1, 19, "bws", false⟩, ⟨1, 12, "bws", false⟩], []⟩ 1).length :=
  (within_loop_terminates ⟨"within", ["pairwise", "bws"], 2,
      [10, 11, 12, 13, 14, 15, 16, 17, 18, 19],
      [⟨1, "P1", "all", "within", "C1", false, false, none⟩],
      [⟨1, 13, "pairwise", false⟩, ⟨1, 11, "pairwise", false⟩,
       ⟨1, 19, "bws", false⟩, ⟨1, 12, "bws", false⟩], []⟩ 1
    ⟨by decide, by decide, by decide, by decide, by decide, by decide⟩
    (by decide)).1

end RlhfPilot
